import Mathlib

/-!
# Verification of the jcw_financials ledger/KPI core

Shallow embedding of the core financial modules (`src/business_logic.py`,
`src/forecasting.py`, `src/addback_rules.py`, `src/kpi_lab.py`,
`src/reconciliation.py`).  Strings are modelled as `List Char`, monetary
amounts as `ℚ`, calendar dates as integer day keys (e.g. `20250815`), and
Python dicts of metrics as association lists `List (String × ℚ)`.
-/

set_option maxRecDepth 20000

namespace JCW

/-- Python `\s` / `str.strip` whitespace over the ASCII range. -/
def pyIsSpace (c : Char) : Bool :=
  c == ' ' || c == '\t' || c == '\n' || c == '\r' || c == Char.ofNat 11 || c == Char.ofNat 12

/-- Python `str.lower` (ASCII inputs). -/
def lowerStr (s : List Char) : List Char :=
  s.map Char.toLower

/-- Python `str.strip()`: remove leading and trailing whitespace. -/
def stripPy (s : List Char) : List Char :=
  ((s.dropWhile pyIsSpace).reverse.dropWhile pyIsSpace).reverse

/-- Python substring test `needle in hay` / `Series.str.contains` on a literal pattern. -/
def containsSub : List Char → List Char → Bool
  | [], needle => needle.isEmpty
  | h :: t, needle => needle.isPrefixOf (h :: t) || containsSub t needle

/-- Leading digit run after optional whitespace: what the regex `^\s*(\d+)` captures. -/
def digitRun (s : List Char) : List Char :=
  (s.dropWhile pyIsSpace).takeWhile Char.isDigit

/-- `business_logic.extract_account_prefix`: `None` for blank / literal-"nan" text,
otherwise the full leading digit run captured by `re.match(r"^\s*(\d+)", s)`
(or `None` when the text does not start with a digit). -/
def extract_account_prefix (s : List Char) : Option (List Char) :=
  if stripPy s = [] ∨ lowerStr (stripPy s) = "nan".data then none
  else
    let ds := digitRun s
    if ds = [] then none else some ds

/-- `business_logic.account_code_prefix`: the first three digits captured by
`re.match(r"^\s*(\d{3})", s)`, or `None` when fewer than three leading digits exist. -/
def account_code_prefix (s : List Char) : Option (List Char) :=
  let ds := digitRun s
  if 3 ≤ ds.length then some (ds.take 3) else none

/-! ## Metrics dictionaries (`dict[str, float]`) -/

/-- Python `metrics.get(k, 0.0) or 0.0`. -/
def dget (m : List (String × ℚ)) (k : String) : ℚ :=
  (m.lookup k).getD 0

/-- Python `out[k] = v` on a dict modelled as an association list:
replace the existing binding in place, else append. -/
def dset : List (String × ℚ) → String → ℚ → List (String × ℚ)
  | [], k, v => [(k, v)]
  | (k', v') :: t, k, v => if k' = k then (k, v) :: t else (k', v') :: dset t k v

/-- `business_logic._net_to_positive`: flip a negative net total to a positive magnitude. -/
def net_to_positive (total : ℚ) : ℚ :=
  if total < 0 then -total else total

/-- `business_logic.apply_legacy_overhead_addins`: treat the legacy overhead add-in as
extra overhead, recomputing gross profit, net profit and SDE; a zero add-in
returns the (copied) input dict. -/
def apply_legacy_overhead_addins (metrics : List (String × ℚ)) (legacy_overhead_included_total : ℚ) :
    List (String × ℚ) :=
  let out := metrics
  let legacy_total := legacy_overhead_included_total
  if legacy_total = 0 then out
  else
    let revenue := dget out "revenue"
    let cogs := dget out "cogs"
    let overhead := dget out "overhead" + legacy_total
    let other_expense := dget out "other_expense"
    let addbacks := dget out "addbacks"
    let out := dset out "overhead" overhead
    let out := dset out "gross_profit" (revenue - cogs)
    let out := dset out "net_profit" (revenue - (cogs + overhead + other_expense))
    let out := dset out "sde" (dget out "net_profit" + addbacks)
    let out := dset out "legacy_overhead_included" legacy_total
    out

/-! ## Run rates (`forecasting.py`) -/

/-- The fixed average month length 30.4375 = 365.25 / 12 used by the forecaster. -/
def monthLen : ℚ := 487 / 16

/-- `forecasting.calculate_run_rates`: divide every metric value by
`max(days / 30.4375, 1.0)` months. -/
def calculate_run_rates (owner_metrics : List (String × ℚ)) (days_in_owner_revenue_period : ℕ) :
    List (String × ℚ) :=
  owner_metrics.map fun kv => (kv.1, kv.2 / max ((days_in_owner_revenue_period : ℚ) / monthLen) 1)

/-! ## Theorems for C1 (legacy overhead add-in scenario) -/

/-- C1 counterexample: on the literal snapshot of the claim — only the keys
`overhead`, `net_profit`, `sde`, `addbacks` present — the add-in of 75 recomputes
`net_profit` from the missing (hence 0) `revenue`, giving −275 rather than the
claimed 575, and `sde` = −265 rather than 585 (overhead does become 275). -/
theorem apply_addins_claim_snapshot_fails :
    dget (apply_legacy_overhead_addins
      [("overhead", 200), ("net_profit", 650), ("sde", 660), ("addbacks", 10)] 75) "overhead" = 275 ∧
    dget (apply_legacy_overhead_addins
      [("overhead", 200), ("net_profit", 650), ("sde", 660), ("addbacks", 10)] 75) "net_profit" = -275 ∧
    dget (apply_legacy_overhead_addins
      [("overhead", 200), ("net_profit", 650), ("sde", 660), ("addbacks", 10)] 75) "sde" = -265 ∧
    ((-275 : ℚ) ≠ 575) := by
  refine ⟨?_, ?_, ?_, ?_⟩ <;> with_unfolding_all decide

/-- C1 (amended): the fixture snapshot also carries `revenue` 1000, `cogs` 100 and
`other_expense` 50; on it the add-in of 75 yields overhead 275, net profit 575,
SDE 585 — and for every metrics dict a zero add-in returns the input unchanged. -/
theorem apply_addins_fixture_and_zero_identity :
    (∀ m : List (String × ℚ), apply_legacy_overhead_addins m 0 = m) ∧
    (dget (apply_legacy_overhead_addins
        [("revenue", 1000), ("cogs", 100), ("overhead", 200), ("other_expense", 50),
         ("addbacks", 10), ("gross_profit", 900), ("net_profit", 650), ("sde", 660)] 75)
        "overhead" = 275 ∧
      dget (apply_legacy_overhead_addins
        [("revenue", 1000), ("cogs", 100), ("overhead", 200), ("other_expense", 50),
         ("addbacks", 10), ("gross_profit", 900), ("net_profit", 650), ("sde", 660)] 75)
        "net_profit" = 575 ∧
      dget (apply_legacy_overhead_addins
        [("revenue", 1000), ("cogs", 100), ("overhead", 200), ("other_expense", 50),
         ("addbacks", 10), ("gross_profit", 900), ("net_profit", 650), ("sde", 660)] 75)
        "sde" = 585) := by
  refine ⟨fun m => by simp [apply_legacy_overhead_addins], ?_, ?_, ?_⟩ <;>
    with_unfolding_all decide

/-! ## Theorems for C2 (run rates) -/

/-- C2 counterexample: at a 1-day window the code returns the value unchanged
(months is clamped to 1.0), not `v / 1 * 30.4375` as the claim's uniform formula
demands. -/
theorem calculate_run_rates_day1_fails :
    calculate_run_rates [("revenue", 1)] 1 = [("revenue", 1)] ∧
    ((1 : ℚ) / 1 * monthLen ≠ 1) := by
  exact ⟨by with_unfolding_all decide, by with_unfolding_all decide⟩

/-- C2 (amended): `calculate_run_rates` divides every value by
`max(days / 30.4375, 1)`; for integer day-counts of at least 31 this is exactly
the claimed `v / days * 30.4375`, while for day-counts of at most 30 the clamp
fires and every value is returned unchanged. -/
theorem calculate_run_rates_characterization
    (m : List (String × ℚ)) (d : ℕ) :
    (31 ≤ d →
      calculate_run_rates m d = m.map fun kv => (kv.1, kv.2 / (d : ℚ) * monthLen)) ∧
    (d ≤ 30 → calculate_run_rates m d = m) := by
  constructor
  · intro hd
    have hd1 : (1 : ℚ) ≤ (d : ℚ) / monthLen := by
      rw [le_div_iff₀ (by norm_num [monthLen])]
      calc (1 : ℚ) * monthLen = 487 / 16 := by norm_num [monthLen]
        _ ≤ 31 := by norm_num
        _ ≤ (d : ℚ) := by exact_mod_cast hd
    have hmax : max ((d : ℚ) / monthLen) 1 = (d : ℚ) / monthLen := max_eq_left hd1
    have hfun : (fun kv : String × ℚ => (kv.1, kv.2 / ((d : ℚ) / monthLen)))
        = fun kv : String × ℚ => (kv.1, kv.2 / (d : ℚ) * monthLen) := by
      funext kv
      rw [div_div_eq_mul_div, div_mul_eq_mul_div]
    simp only [calculate_run_rates, hmax, hfun]
  · intro hd
    have hd1 : (d : ℚ) / monthLen ≤ 1 := by
      rw [div_le_one (by norm_num [monthLen])]
      calc (d : ℚ) ≤ 30 := by exact_mod_cast hd
        _ ≤ monthLen := by norm_num [monthLen]
    have hmax : max ((d : ℚ) / monthLen) 1 = 1 := max_eq_right hd1
    simp only [calculate_run_rates, hmax, div_one]
    simp


/-! ## Transaction classifier (`business_logic.classify_transactions`) -/

/-- Per-row derived columns produced by `classify_transactions`. -/
structure TxnClass where
  is_revenue : Bool
  is_cogs : Bool
  is_overhead : Bool
  is_other_expense : Bool
  classification : List Char
deriving Repr, DecidableEq

/-- Revenue mask: lower-cased `account_type` or `account` text contains "income". -/
def revenueMask (account_type account : List Char) : Bool :=
  containsSub (lowerStr account_type) "income".data ||
    containsSub (lowerStr account) "income".data

/-- Other-expense mask: lower-cased `account_type` contains "other expense" or "other income". -/
def otherExpMask (account_type : List Char) : Bool :=
  containsSub (lowerStr account_type) "other expense".data ||
    containsSub (lowerStr account_type) "other income".data

/-- Expense-like mask: lower-cased `account_type` contains "expense",
"cost of goods sold" or "cogs". -/
def expenseLikeMask (account_type : List Char) : Bool :=
  containsSub (lowerStr account_type) "expense".data ||
    containsSub (lowerStr account_type) "cost of goods sold".data ||
    containsSub (lowerStr account_type) "cogs".data

/-- The regex `fullmatch(r"\s*cogs\s*")` on the lower-cased account type. -/
def fullmatchCogs (atype : List Char) : Bool :=
  let t := atype.dropWhile pyIsSpace
  "cogs".data.isPrefixOf t && (t.drop 4).all pyIsSpace

/-- COGS condition inside the expense-like bucket: explicit COGS account type, or the
row's extracted account prefix lies in the configured job-cost prefix set. -/
def cogsCond (cogs_prefixes : List (List Char)) (account_type account : List Char) : Bool :=
  (containsSub (lowerStr account_type) "cost of goods sold".data ||
      fullmatchCogs (lowerStr account_type)) ||
    (match extract_account_prefix account with
      | some p => cogs_prefixes.contains p
      | none => false)

/-- The boolean-mask algebra of `classify_transactions` (flag initialisation, the four
assignments, the mutual-exclusivity enforcement, and the `np.select` classification
string), per row; `r`, `oe`, `el`, `x` are the revenue, other-expense, expense-like and
COGS conditions of the row and `atype` its lower-cased account type. -/
def mkClass (atype : List Char) (r oe el x : Bool) : TxnClass :=
  let oe0 := oe && !r
  let rem := el && !r && !oe0
  let c0 := rem && x
  let oh0 := rem && !c0
  let c2 := c0 && !r && !oe0
  let oh3 := oh0 && !r && !oe0 && !c2
  let cls :=
    if r then "Revenue".data
    else if c2 then "COGS".data
    else if oh3 then "Overhead".data
    else if oe0 then "Other".data
    else if atype = [] then "Unclassified".data
    else "Other".data
  ⟨r, c2, oh3, oe0, cls⟩

/-- `classify_transactions`, per row (the dataframe version applies exactly this
logic row-wise through vectorized masks). -/
def classifyRow (cogs_prefixes : List (List Char)) (account_type account : List Char) :
    TxnClass :=
  mkClass (lowerStr account_type)
    (revenueMask account_type account)
    (otherExpMask account_type)
    (expenseLikeMask account_type)
    (cogsCond cogs_prefixes account_type account)

/-- The default COGS / job-cost account prefix set `{"704",...,"708"}`. -/
def defaultCogsPrefixes : List (List Char) :=
  ["704".data, "705".data, "706".data, "707".data, "708".data]

/-- C6: every classified row has at most one of the four flags set, and the flags are
exactly the priority cascade Revenue → OtherExpense → COGS → Overhead (each later
bucket excludes rows already claimed by an earlier one). -/
theorem classify_flags_exclusive (cogs_prefixes : List (List Char))
    (account_type account : List Char) :
    ((classifyRow cogs_prefixes account_type account).is_revenue.toNat
        + (classifyRow cogs_prefixes account_type account).is_cogs.toNat
        + (classifyRow cogs_prefixes account_type account).is_overhead.toNat
        + (classifyRow cogs_prefixes account_type account).is_other_expense.toNat ≤ 1) ∧
    (classifyRow cogs_prefixes account_type account).is_revenue
      = revenueMask account_type account ∧
    (classifyRow cogs_prefixes account_type account).is_other_expense
      = (otherExpMask account_type && !revenueMask account_type account) ∧
    (classifyRow cogs_prefixes account_type account).is_cogs
      = (expenseLikeMask account_type && !revenueMask account_type account
          && !otherExpMask account_type && cogsCond cogs_prefixes account_type account) ∧
    (classifyRow cogs_prefixes account_type account).is_overhead
      = (expenseLikeMask account_type && !revenueMask account_type account
          && !otherExpMask account_type && !cogsCond cogs_prefixes account_type account) := by
  unfold classifyRow mkClass
  generalize revenueMask account_type account = r
  generalize otherExpMask account_type = oe
  generalize expenseLikeMask account_type = el
  generalize cogsCond cogs_prefixes account_type account = x
  cases r <;> cases oe <;> cases el <;> cases x <;> simp

/-- C4 counterexample: a row with the non-empty but unrecognized account type "Bank"
(and empty account text) is classified "Other", not "Unclassified". -/
theorem classify_bank_row_not_unclassified :
    (classifyRow defaultCogsPrefixes "Bank".data []).classification = "Other".data ∧
    "Other".data ≠ "Unclassified".data := by
  exact ⟨by decide, by decide⟩

/-- C4 (amended): a row whose account type matches none of the recognized category
texts and whose account text does not contain "income" gets all four flags false;
its classification is "Unclassified" when the account type is empty and "Other"
when it is non-empty (in neither case Overhead or any other bucket). -/
theorem classify_unrecognized_characterization
    (cogs_prefixes : List (List Char)) (account_type account : List Char)
    (hai : containsSub (lowerStr account) "income".data = false)
    (hti : containsSub (lowerStr account_type) "income".data = false)
    (hte : containsSub (lowerStr account_type) "expense".data = false)
    (htc : containsSub (lowerStr account_type) "cost of goods sold".data = false)
    (htg : containsSub (lowerStr account_type) "cogs".data = false)
    (hto : containsSub (lowerStr account_type) "other expense".data = false)
    (hton : containsSub (lowerStr account_type) "other income".data = false) :
    ((classifyRow cogs_prefixes account_type account).is_revenue = false ∧
      (classifyRow cogs_prefixes account_type account).is_cogs = false ∧
      (classifyRow cogs_prefixes account_type account).is_overhead = false ∧
      (classifyRow cogs_prefixes account_type account).is_other_expense = false) ∧
    (account_type = [] →
      (classifyRow cogs_prefixes account_type account).classification = "Unclassified".data) ∧
    (account_type ≠ [] →
      (classifyRow cogs_prefixes account_type account).classification = "Other".data) := by
  have hr : revenueMask account_type account = false := by
    simp [revenueMask, hti, hai]
  have hoe : otherExpMask account_type = false := by
    simp [otherExpMask, hto, hton]
  have hel : expenseLikeMask account_type = false := by
    simp [expenseLikeMask, hte, htc, htg]
  refine ⟨?_, ?_, ?_⟩
  · simp [classifyRow, mkClass, hr, hoe, hel]
  · intro h
    subst h
    simp [classifyRow, mkClass, hr, hoe, hel, lowerStr]
  · intro h
    have hl : lowerStr account_type ≠ [] := by
      simpa [lowerStr] using h
    simp [classifyRow, mkClass, hr, hoe, hel, hl]

/-- C4 witness: the amended characterization applied to the concrete rows
(account_type "", account "Building") and (account_type "Bank", account ""). -/
theorem classify_unrecognized_characterization_witness :
    (classifyRow defaultCogsPrefixes [] "Building".data).classification
      = "Unclassified".data ∧
    (classifyRow defaultCogsPrefixes "Bank".data []).classification = "Other".data := by
  constructor
  · exact (classify_unrecognized_characterization defaultCogsPrefixes [] "Building".data
      (by decide) (by decide) (by decide) (by decide) (by decide) (by decide) (by decide)).2.1
      rfl
  · exact (classify_unrecognized_characterization defaultCogsPrefixes "Bank".data []
      (by decide) (by decide) (by decide) (by decide) (by decide) (by decide) (by decide)).2.2
      (by decide)

/-! ## Owner / period metrics (`business_logic.get_owner_metrics`, `get_period_metrics`) -/

/-- A classified, addback-flagged ledger row as consumed by the metrics engines.
`date` is an integer day key (e.g. `20250815`) ordered like the calendar. -/
structure Txn where
  date : ℤ
  account : List Char
  amount : ℚ
  is_revenue : Bool
  is_cogs : Bool
  is_overhead : Bool
  is_other_expense : Bool
  sde_addback_flag : Bool
deriving Repr, DecidableEq

/-- `df.loc[mask, "amount"].sum()`. -/
def sumAmt (rows : List Txn) : ℚ :=
  (rows.map fun t => t.amount).sum

/-- The addback summation policy as the spec words it (§4.3): if any selected amount
is positive, sum only the positive ones; otherwise sum the negated negative ones. -/
def signPrefSum (amounts : List ℚ) : ℚ :=
  if amounts.any (fun a => decide (0 < a)) then (amounts.filter fun a => decide (0 < a)).sum
  else -(amounts.filter fun a => decide (a < 0)).sum

/-- The metrics dict returned by `get_owner_metrics`. -/
structure OwnerMetrics where
  revenue : ℚ
  cogs : ℚ
  legacy_cogs : ℚ
  overhead : ℚ
  other_expense : ℚ
  gross_profit : ℚ
  net_profit : ℚ
  addbacks : ℚ
  sde : ℚ
  legacy_july_total_expense : ℚ
  legacy_july_excluded_job_cost : ℚ
  legacy_july_included_overhead : ℚ
deriving Repr, DecidableEq

/-- `business_logic.get_owner_metrics`: the owner-period metrics engine with the
legacy (July) window carve-out. -/
def get_owner_metrics (df : List Txn)
    (owner_period_start current_date owner_revenue_start : ℤ)
    (addback_account_overrides : List (List Char))
    (exclude_legacy_july_job_costs : Bool)
    (legacy_job_cost_prefixes : List (List Char)) : OwnerMetrics :=
  let df_window := df.filter fun t =>
    decide (owner_period_start ≤ t.date) && decide (t.date ≤ current_date)
  let revenue := net_to_positive (sumAmt (df_window.filter fun t =>
    t.is_revenue && decide (owner_revenue_start ≤ t.date)))
  let july := fun t : Txn =>
    decide (owner_period_start ≤ t.date) && decide (t.date < owner_revenue_start)
  let aug_plus := fun t : Txn => decide (owner_revenue_start ≤ t.date)
  let is_job_cost := fun t : Txn =>
    match account_code_prefix t.account with
    | some p => legacy_job_cost_prefixes.contains p
    | none => false
  let expense_any := fun t : Txn => t.is_overhead || t.is_other_expense || t.is_cogs
  let legacy_july_total_expense :=
    net_to_positive (sumAmt (df_window.filter fun t => july t && expense_any t))
  let legacy_july_excluded_job_cost :=
    net_to_positive (sumAmt (df_window.filter fun t => july t && is_job_cost t && expense_any t))
  let cogs := net_to_positive (sumAmt (df_window.filter fun t => t.is_cogs && aug_plus t))
  let legacy_cogs := net_to_positive (sumAmt (df_window.filter fun t => t.is_cogs && july t))
  let overhead_aug_raw := sumAmt (df_window.filter fun t => t.is_overhead && aug_plus t)
  let july_overhead_rows :=
    if exclude_legacy_july_job_costs then
      df_window.filter fun t => t.is_overhead && july t && !(is_job_cost t)
    else
      df_window.filter fun t => t.is_overhead && july t
  let legacy_july_included_overhead_raw := sumAmt july_overhead_rows
  let legacy_july_included_overhead := net_to_positive legacy_july_included_overhead_raw
  let overhead := net_to_positive (overhead_aug_raw + legacy_july_included_overhead_raw)
  let other_expense :=
    net_to_positive (sumAmt (df_window.filter fun t => t.is_other_expense && aug_plus t))
  let addback_amounts := (df_window.filter fun t =>
    t.sde_addback_flag || addback_account_overrides.contains t.account).map fun t => t.amount
  let addbacks :=
    if addback_amounts.any (fun a => decide (0 < a)) then
      (addback_amounts.filter fun a => decide (0 < a)).sum
    else -(addback_amounts.filter fun a => decide (a < 0)).sum
  let gross_profit := revenue - cogs
  let net_profit := revenue - (cogs + overhead + other_expense)
  let sde := net_profit + addbacks
  ⟨revenue, cogs, legacy_cogs, overhead, other_expense, gross_profit, net_profit, addbacks,
    sde, legacy_july_total_expense, legacy_july_excluded_job_cost, legacy_july_included_overhead⟩

/-- The metrics dict returned by `get_period_metrics`. -/
structure PeriodMetrics where
  revenue : ℚ
  cogs : ℚ
  overhead : ℚ
  other_expense : ℚ
  gross_profit : ℚ
  net_profit : ℚ
  addbacks : ℚ
  sde : ℚ
deriving Repr, DecidableEq

/-- `business_logic.get_period_metrics`: flag-based sums over an already-filtered
window (the date arguments are accepted but unused, as in the source). -/
def get_period_metrics (df_period : List Txn) (start_date end_date : ℤ) : PeriodMetrics :=
  let revenue := net_to_positive (sumAmt (df_period.filter fun t => t.is_revenue))
  let cogs := net_to_positive (sumAmt (df_period.filter fun t => t.is_cogs))
  let overhead := net_to_positive (sumAmt (df_period.filter fun t => t.is_overhead))
  let other_expense := net_to_positive (sumAmt (df_period.filter fun t => t.is_other_expense))
  let addback_amounts := (df_period.filter fun t => t.sde_addback_flag).map fun t => t.amount
  let addbacks :=
    if addback_amounts.any (fun a => decide (0 < a)) then
      (addback_amounts.filter fun a => decide (0 < a)).sum
    else -(addback_amounts.filter fun a => decide (a < 0)).sum
  let gross_profit := revenue - cogs
  let net_profit := revenue - (cogs + overhead + other_expense)
  let sde := net_profit + addbacks
  ⟨revenue, cogs, overhead, other_expense, gross_profit, net_profit, addbacks, sde⟩

/-! ## Monthly KPI addbacks (`kpi_lab._addbacks_by_month`) -/

/-- The columns `_addbacks_by_month` consumes: month key, signed amount, addback flag. -/
structure KpiRow where
  month : ℤ
  amount : ℚ
  sde_addback_flag : Bool
deriving Repr, DecidableEq

/-- Insert into a sorted list of month keys. -/
def insertSortedInt (m : ℤ) : List ℤ → List ℤ
  | [] => [m]
  | x :: t => if m ≤ x then m :: x :: t else x :: insertSortedInt m t

/-- Sort month keys ascending (pandas `groupby` iterates keys in sorted order). -/
def sortInts : List ℤ → List ℤ
  | [] => []
  | x :: t => insertSortedInt x (sortInts t)

/-- `kpi_lab._addbacks_by_month`: per month, the sum of ABSOLUTE amounts of the
addback-flagged rows. -/
def addbacks_by_month (df : List KpiRow) : List (ℤ × ℚ) :=
  let subset := df.filter fun r => r.sde_addback_flag
  let months := sortInts (subset.map fun r => r.month).dedup
  months.map fun m => (m, ((subset.filter fun r => decide (r.month = m)).map fun r => |r.amount|).sum)

/-! ## Theorem for C3 (owner metrics fixture scenario) -/

/-- C3: on the fixture ledger — July COGS 200 (legacy), August revenue raw −2000,
August overhead 500 and 100, August other-expense 300, with the 100-overhead and
300-other-expense rows addback-flagged — `get_owner_metrics` (window July 1 to
Aug 31, revenue start Aug 1, default job-cost prefixes) returns revenue 2000,
cogs 0, legacy_cogs 200, overhead 600, other_expense 300, net_profit 1100,
addbacks 400, sde 1500. -/
theorem owner_metrics_fixture :
    get_owner_metrics
      [⟨20250720, "Materials".data, 200, false, true, false, false, false⟩,
       ⟨20250805, "Sales".data, -2000, true, false, false, false, false⟩,
       ⟨20250810, "Rent".data, 500, false, false, true, false, false⟩,
       ⟨20250815, "Meals".data, 100, false, false, true, false, true⟩,
       ⟨20250820, "Other".data, 300, false, false, false, true, true⟩]
      20250701 20250831 20250801 [] true defaultCogsPrefixes
    = ⟨2000, 0, 200, 600, 300, 2000, 1100, 400, 1500, 200, 0, 0⟩ := by
  with_unfolding_all decide

/-! ## Theorems for C7 (addback sign-preference policy) -/

/-- C7 counterexample: a month whose flagged rows are +100 and −50 — the monthly KPI
rollup reports 150 (sum of absolute values), while the sign-preference policy the
claim asserts for it yields 100. -/
theorem kpi_addbacks_not_sign_preference :
    addbacks_by_month [⟨1, 100, true⟩, ⟨1, -50, true⟩] = [(1, 150)] ∧
    signPrefSum [100, -50] = 100 ∧ ((150 : ℚ) ≠ 100) := by
  refine ⟨?_, ?_, ?_⟩ <;> with_unfolding_all decide

/-- C7 (amended): `get_period_metrics` and `get_owner_metrics` compute their addbacks
magnitude by the sign-preference policy, but the per-month KPI rollup instead sums
the absolute values of every addback-flagged row of the month. -/
theorem addbacks_sign_preference_amended :
    (∀ (rows : List Txn) (s e : ℤ),
      (get_period_metrics rows s e).addbacks
        = signPrefSum ((rows.filter fun t => t.sde_addback_flag).map fun t => t.amount)) ∧
    (∀ (df : List Txn) (ps cd rs : ℤ) (ov : List (List Char)) (ex : Bool)
        (pf : List (List Char)),
      (get_owner_metrics df ps cd rs ov ex pf).addbacks
        = signPrefSum (((df.filter fun t =>
            decide (ps ≤ t.date) && decide (t.date ≤ cd)).filter fun t =>
              t.sde_addback_flag || ov.contains t.account).map fun t => t.amount)) ∧
    (∀ (df : List KpiRow) (m : ℤ) (x : ℚ), (m, x) ∈ addbacks_by_month df →
      x = (((df.filter (fun r => r.sde_addback_flag)).filter
            (fun r => decide (r.month = m))).map (fun r => |r.amount|)).sum) := by
  refine ⟨fun rows s e => rfl, fun df ps cd rs ov ex pf => rfl, fun df m x hm => ?_⟩
  unfold addbacks_by_month at hm
  obtain ⟨m0, hm0, heq⟩ := List.mem_map.mp hm
  obtain ⟨h1, h2⟩ := Prod.mk.injEq .. ▸ heq
  subst h1
  exact h2.symm

/-- C7 witness: the amended per-month characterization applied to the two-row
fixture month. -/
theorem addbacks_sign_preference_amended_witness :
    (150 : ℚ) = (((([⟨1, 100, true⟩, ⟨1, -50, true⟩] : List KpiRow).filter
        (fun r => r.sde_addback_flag)).filter (fun r => decide (r.month = 1))).map
        (fun r => |r.amount|)).sum :=
  addbacks_sign_preference_amended.2.2 [⟨1, 100, true⟩, ⟨1, -50, true⟩] 1 150
    (by with_unfolding_all decide)

/-! ## Addback rules (`addback_rules.py`) -/

/-- `addback_rules.AddbackRule`. -/
structure AddbackRule where
  name : List Char
  account_contains : Option (List (List Char)) := none
  name_contains : Option (List (List Char)) := none
  memo_contains : Option (List (List Char)) := none
  amount : Option ℚ := none
  amount_tolerance : Option ℚ := none
deriving Repr, DecidableEq

/-- The raw rule dict handed to `parse_rule` (fields already in their parsed types). -/
structure RuleObj where
  name : List Char
  account_contains : Option (List (List Char)) := none
  name_contains : Option (List (List Char)) := none
  memo_contains : Option (List (List Char)) := none
  amount : Option ℚ := none
  amount_tolerance : Option ℚ := none
deriving Repr, DecidableEq

/-- `addback_rules._as_list`: strip entries, drop empties, collapse to `None` when
nothing remains. -/
def as_list (v : Option (List (List Char))) : Option (List (List Char)) :=
  match v with
  | none => none
  | some l =>
    let out := (l.map stripPy).filter fun x => !x.isEmpty
    if out = [] then none else some out

/-- `addback_rules.parse_rule`: only a missing/blank `name` is rejected. -/
def parse_rule (obj : RuleObj) : Except (List Char) AddbackRule :=
  let nm := stripPy obj.name
  if nm = [] then Except.error "Addback rule missing required name".data
  else
    Except.ok ⟨nm, as_list obj.account_contains, as_list obj.name_contains,
      as_list obj.memo_contains, obj.amount, obj.amount_tolerance⟩

/-- A ledger row as consumed by `apply_rules_to_df`. -/
structure LRow where
  date : ℤ
  amount : ℚ
  account : List Char
  name : List Char
  memo : List Char
  sde_addback_flag : Bool
  sde_addback_reason : List Char
deriving Repr, DecidableEq

/-- `addback_rules._contains_all`: every (stripped, lower-cased, non-empty) needle of
the group must occur in the lower-cased haystack; a missing/empty group is all-True. -/
def contains_all (hay : List Char) (needles : Option (List (List Char))) : Bool :=
  match needles with
  | none => true
  | some [] => true
  | some ns => ns.all fun n =>
      let n0 := lowerStr (stripPy n)
      n0.isEmpty || containsSub (lowerStr hay) n0

/-- The built-in recurring payroll rule's name. -/
def payrollRuleName : List Char := "weekly_payroll_addback_2880".data

/-- One rule's boolean mask at one row (`apply_rules_to_df` loop body). -/
def ruleMatchesRow (payroll_start : ℤ) (rule : AddbackRule) (row : LRow) : Bool :=
  let tol := rule.amount_tolerance.getD (1 / 100)
  let m := contains_all row.account rule.account_contains
    && contains_all row.name rule.name_contains
    && contains_all row.memo rule.memo_contains
  let m := if rule.name = payrollRuleName then m && decide (payroll_start ≤ row.date) else m
  match rule.amount with
  | none => m
  | some a => m && decide (abs (abs row.amount - abs a) ≤ tol)

/-- Flag a matching row and append `rule=<name>` to its reason trail. -/
def applyRuleRow (payroll_start : ℤ) (rule : AddbackRule) (row : LRow) : LRow :=
  if ruleMatchesRow payroll_start rule row then
    { row with
      sde_addback_flag := true,
      sde_addback_reason := row.sde_addback_reason
        ++ (if row.sde_addback_reason = [] then [] else ", ".data)
        ++ "rule=".data ++ rule.name }
  else row

/-- `addback_rules.apply_rules_to_df`: rules applied in list order over all rows. -/
def apply_rules_to_df (df : List LRow) (rules : List AddbackRule) (payroll_start : ℤ) :
    List LRow :=
  rules.foldl (fun rows rule => rows.map (applyRuleRow payroll_start rule)) df

/-! ## Theorem for C5 (zero-predicate rule) -/

/-- C5 (code behaviour at the failing input): a rule carrying only a name and no
predicate at all is accepted by `parse_rule`, matches every row
(`ruleMatchesRow` is identically true for it), and `apply_rules_to_df` silently
flags a perfectly ordinary row — nothing raises or rejects. -/
theorem empty_rule_accepted_and_flags_everything :
    parse_rule ⟨"r".data, none, none, none, none, none⟩
      = Except.ok ⟨"r".data, none, none, none, none, none⟩ ∧
    (∀ (ps : ℤ) (row : LRow),
      ruleMatchesRow ps ⟨"r".data, none, none, none, none, none⟩ row = true) ∧
    apply_rules_to_df
      [⟨20250101, 50, "865 - Rent".data, "Landlord".data, "Rent".data, false, []⟩]
      [⟨"r".data, none, none, none, none, none⟩] 20251115
      = [⟨20250101, 50, "865 - Rent".data, "Landlord".data, "Rent".data, true,
          "rule=r".data⟩] := by
  refine ⟨by rfl, fun ps row => ?_, by decide⟩
  simp [ruleMatchesRow, contains_all, payrollRuleName]

/-! ## Bank reconciliation (`reconciliation.match_qb_and_bank`) -/

/-- A normalized reconciliation row: date (integer day key) and signed amount. -/
structure RRow where
  date : ℤ
  amount : ℚ
deriving Repr, DecidableEq

/-- Banker's rounding (round-half-even), as pandas `Series.round` does. -/
def roundHalfEven (x : ℚ) : ℤ :=
  let f := Int.floor x
  let frac := x - f
  if frac < 1 / 2 then f
  else if 1 / 2 < frac then f + 1
  else if f % 2 = 0 then f else f + 1

/-- `Series.round(2)`. -/
def round2 (x : ℚ) : ℚ :=
  (roundHalfEven (x * 100) : ℚ) / 100

/-- Candidate bank rows for one ledger row: identical rounded amount, date within the
tolerance window, not yet consumed by an earlier ledger row. -/
def candidates (bank : List (ℕ × RRow)) (used : List ℕ) (tol : ℤ) (q : RRow) :
    List (ℕ × RRow) :=
  bank.filter fun b =>
    decide (round2 b.2.amount = round2 q.amount) && decide (|b.2.date - q.date| ≤ tol)
      && !(used.contains b.1)

/-- `idxmin` over date differences: the first candidate attaining the minimal absolute
date difference (ties keep the earlier bank row). -/
def pickBest (qdate : ℤ) : List (ℕ × RRow) → Option (ℕ × RRow)
  | [] => none
  | c :: rest =>
    match pickBest qdate rest with
    | none => some c
    | some b => if |b.2.date - qdate| < |c.2.date - qdate| then some b else some c

/-- The greedy matching loop over indexed ledger rows: each row consumes at most one
bank row; returns the (ledger-index, bank-index) pairs in iteration order together
with the final consumed-bank-index list. -/
def matchGo (bank : List (ℕ × RRow)) (tol : ℤ) :
    List (ℕ × RRow) → List ℕ → List (ℕ × ℕ) × List ℕ
  | [], used => ([], used)
  | (qi, q) :: rest, used =>
    match pickBest q.date (candidates bank used tol q) with
    | none => matchGo bank tol rest used
    | some (bi, _) =>
      let r := matchGo bank tol rest (bi :: used)
      ((qi, bi) :: r.1, r.2)

/-- `reconciliation.MatchResult` over indexed rows. -/
structure MatchResult where
  matched : List (ℕ × ℕ)
  unmatched_qb : List (ℕ × RRow)
  unmatched_bank : List (ℕ × RRow)
deriving Repr, DecidableEq

/-- `reconciliation.match_qb_and_bank`: greedy amount/date-window matching; the
unmatched sides are the rows whose index was never consumed. -/
def match_qb_and_bank (qb_df bank_df : List RRow) (date_tolerance_days : ℤ) : MatchResult :=
  let qb := qb_df.enum
  let bank := bank_df.enum
  let r := matchGo bank date_tolerance_days qb []
  ⟨r.1, qb.filter fun x => !((r.1.map Prod.fst).contains x.1),
    bank.filter fun x => !(r.2.contains x.1)⟩

/-! ## Theorem for C8 (matcher scenario) -/

/-- C8: ledger row amount 100 on day 10 against bank rows 100@day 12 and 100@day 25
with tolerance 14: the day-12 bank row is matched (day 25 is outside the window and
farther anyway) and the day-25 row is left unmatched. -/
theorem matcher_day12_scenario :
    match_qb_and_bank [⟨10, 100⟩] [⟨12, 100⟩, ⟨25, 100⟩] 14
      = ⟨[(0, 0)], [], [(1, ⟨25, 100⟩)]⟩ := by
  with_unfolding_all decide

/-! ## C9: partition invariants of the matcher -/

/-- `pickBest` only ever returns a member of its candidate list. -/
theorem pickBest_mem (qdate : ℤ) :
    ∀ (l : List (ℕ × RRow)) (c : ℕ × RRow), pickBest qdate l = some c → c ∈ l := by
  intro l
  induction l with
  | nil => intro c h; simp [pickBest] at h
  | cons a rest ih =>
    intro c h
    simp only [pickBest] at h
    cases hp : pickBest qdate rest with
    | none =>
      rw [hp] at h
      simp only [Option.some.injEq] at h
      subst h
      exact List.mem_cons_self a rest
    | some b =>
      rw [hp] at h
      dsimp only at h
      by_cases hlt : |b.2.date - qdate| < |a.2.date - qdate|
      · rw [if_pos hlt] at h
        injection h with h
        subst h
        exact List.mem_cons_of_mem a (ih b hp)
      · rw [if_neg hlt] at h
        injection h with h
        subst h
        exact List.mem_cons_self a rest

/-- The consumed-bank-index list after the loop is exactly the newly matched bank
indices (reversed) on top of the initial one. -/
theorem matchGo_used (bank : List (ℕ × RRow)) (tol : ℤ) (rest : List (ℕ × RRow)) :
    ∀ used : List ℕ,
      (matchGo bank tol rest used).2
        = ((matchGo bank tol rest used).1.map Prod.snd).reverse ++ used := by
  induction rest with
  | nil => intro used; simp [matchGo]
  | cons hd rest ih =>
    intro used
    obtain ⟨qi, q⟩ := hd
    simp only [matchGo]
    cases hp : pickBest q.date (candidates bank used tol q) with
    | none => simpa using ih used
    | some c =>
      obtain ⟨bi, b⟩ := c
      simp only [List.map_cons, List.reverse_cons, List.append_assoc, List.singleton_append]
      exact ih (bi :: used)

/-- The matched ledger indices form a sublist of the processed ledger indices. -/
theorem matchGo_fst_sublist (bank : List (ℕ × RRow)) (tol : ℤ) (rest : List (ℕ × RRow)) :
    ∀ used : List ℕ,
      ((matchGo bank tol rest used).1.map Prod.fst).Sublist (rest.map Prod.fst) := by
  induction rest with
  | nil => intro used; simp [matchGo]
  | cons hd rest ih =>
    intro used
    obtain ⟨qi, q⟩ := hd
    simp only [matchGo]
    cases hp : pickBest q.date (candidates bank used tol q) with
    | none =>
      simp only [List.map_cons]
      exact (ih used).cons qi
    | some c =>
      obtain ⟨bi, b⟩ := c
      simp only [List.map_cons]
      exact (ih (bi :: used)).cons₂ qi

/-- The matched bank indices are distinct, fresh with respect to the initial
consumed list, and all drawn from the bank side. -/
theorem matchGo_snd_facts (bank : List (ℕ × RRow)) (tol : ℤ) (rest : List (ℕ × RRow)) :
    ∀ used : List ℕ,
      ((matchGo bank tol rest used).1.map Prod.snd).Nodup ∧
      (∀ b ∈ (matchGo bank tol rest used).1.map Prod.snd,
        b ∉ used ∧ b ∈ bank.map Prod.fst) := by
  induction rest with
  | nil => intro used; simp [matchGo]
  | cons hd rest ih =>
    intro used
    obtain ⟨qi, q⟩ := hd
    simp only [matchGo]
    cases hp : pickBest q.date (candidates bank used tol q) with
    | none => exact ih used
    | some c =>
      obtain ⟨bi, b⟩ := c
      have hc : (bi, b) ∈ candidates bank used tol q := pickBest_mem q.date _ _ hp
      have hfil := List.mem_filter.mp hc
      have hbank : (bi, b) ∈ bank := hfil.1
      have hpred := hfil.2
      have hbiused : bi ∉ used := by
        simp at hpred
        tauto
      obtain ⟨ihn, ihf⟩ := ih (bi :: used)
      constructor
      · simp only [List.map_cons]
        refine List.nodup_cons.mpr ⟨?_, ihn⟩
        intro hmem
        exact (ihf bi hmem).1 (List.mem_cons_self bi used)
      · intro b' hb'
        simp only [List.map_cons] at hb'
        rcases List.mem_cons.mp hb' with h | h
        · subst h
          exact ⟨hbiused, List.mem_map_of_mem Prod.fst hbank⟩
        · obtain ⟨hnu, hin⟩ := ihf b' h
          exact ⟨fun hm => hnu (List.mem_cons_of_mem bi hm), hin⟩

/-- Splitting a list by a boolean predicate partitions its length. -/
theorem length_filter_not_add {α : Type} (p : α → Bool) (l : List α) :
    (l.filter p).length + (l.filter fun a => !(p a)).length = l.length := by
  induction l with
  | nil => rfl
  | cons a t ih =>
    cases hp : p a <;> simp [List.filter_cons, hp] <;> omega

/-- Counting rows whose index lies in a duplicate-free index list `S` drawn from a
duplicate-free keyed list. -/
theorem length_filter_contains (L : List (ℕ × RRow)) :
    ∀ S : List ℕ, (L.map Prod.fst).Nodup → S.Nodup → (∀ s ∈ S, s ∈ L.map Prod.fst) →
      (L.filter fun x => S.contains x.1).length = S.length := by
  induction L with
  | nil =>
    intro S _ _ hsub
    have hS : S = [] := List.eq_nil_iff_forall_not_mem.mpr fun s hs => by
      simpa using hsub s hs
    subst hS
    rfl
  | cons a L ih =>
    intro S hLn hSn hsub
    rw [List.map_cons] at hLn
    obtain ⟨ha1, hLn'⟩ := List.nodup_cons.mp hLn
    by_cases ha : a.1 ∈ S
    · have hcz : S.contains a.1 = true := List.elem_iff.mpr ha
      have hfc : (L.filter fun x => S.contains x.1)
          = L.filter fun x => (S.erase a.1).contains x.1 := by
        refine List.filter_congr fun x hx => ?_
        have hxne : x.1 ≠ a.1 := fun he => ha1 (he ▸ List.mem_map_of_mem Prod.fst hx)
        have e1 : S.contains x.1 = decide (x.1 ∈ S) := List.elem_eq_mem x.1 S
        have e2 : (S.erase a.1).contains x.1 = decide (x.1 ∈ S.erase a.1) :=
          List.elem_eq_mem x.1 (S.erase a.1)
        rw [e1, e2]
        by_cases hxm : x.1 ∈ S
        · have h2 : x.1 ∈ S.erase a.1 := (List.Nodup.mem_erase_iff hSn).mpr ⟨hxne, hxm⟩
          simp [hxm, h2]
        · have h2 : x.1 ∉ S.erase a.1 := fun hm =>
            hxm ((List.Nodup.mem_erase_iff hSn).mp hm).2
          simp [hxm, h2]
      have hsub' : ∀ s ∈ S.erase a.1, s ∈ L.map Prod.fst := by
        intro s hs
        obtain ⟨hne, hsS⟩ := (List.Nodup.mem_erase_iff hSn).mp hs
        have hmem := hsub s hsS
        rw [List.map_cons] at hmem
        rcases List.mem_cons.mp hmem with h | h
        · exact absurd h hne
        · exact h
      have hlen := ih (S.erase a.1) hLn' (hSn.erase a.1) hsub'
      have hfilc : (List.filter (fun x => S.contains x.1) (a :: L))
          = a :: List.filter (fun x => S.contains x.1) L := by
        simp [List.filter_cons, ha]
      rw [hfilc, hfc]
      simp only [List.length_cons]
      rw [hlen, List.length_erase_of_mem ha]
      have hpos : 0 < S.length := List.length_pos.mpr (List.ne_nil_of_mem ha)
      omega
    · have hcz : S.contains a.1 = false := by
        have e : S.contains a.1 = decide (a.1 ∈ S) := List.elem_eq_mem a.1 S
        rw [e]
        simp [ha]
      have hsub' : ∀ s ∈ S, s ∈ L.map Prod.fst := by
        intro s hs
        have hmem := hsub s hs
        rw [List.map_cons] at hmem
        rcases List.mem_cons.mp hmem with h | h
        · exact absurd (h ▸ hs) ha
        · exact h
      have hfilc : (List.filter (fun x => S.contains x.1) (a :: L))
          = List.filter (fun x => S.contains x.1) L := by
        simp [List.filter_cons, ha]
      rw [hfilc]
      exact ih S hLn' hSn hsub'

/-- C9: the matcher partitions both sides — matched plus unmatched row counts equal
each input's row count, and an indexed row is left unmatched exactly when its index
was never recorded in a matched pair. -/
theorem match_qb_and_bank_partitions (qb_df bank_df : List RRow) (tol : ℤ) :
    ((match_qb_and_bank qb_df bank_df tol).matched.length
        + (match_qb_and_bank qb_df bank_df tol).unmatched_qb.length = qb_df.length) ∧
    ((match_qb_and_bank qb_df bank_df tol).matched.length
        + (match_qb_and_bank qb_df bank_df tol).unmatched_bank.length = bank_df.length) ∧
    (∀ x ∈ qb_df.enum,
      x.1 ∈ (match_qb_and_bank qb_df bank_df tol).matched.map Prod.fst
        ↔ x ∉ (match_qb_and_bank qb_df bank_df tol).unmatched_qb) ∧
    (∀ x ∈ bank_df.enum,
      x.1 ∈ (match_qb_and_bank qb_df bank_df tol).matched.map Prod.snd
        ↔ x ∉ (match_qb_and_bank qb_df bank_df tol).unmatched_bank) := by
  have hm : (match_qb_and_bank qb_df bank_df tol).matched
      = (matchGo bank_df.enum tol qb_df.enum []).1 := rfl
  have hq : (match_qb_and_bank qb_df bank_df tol).unmatched_qb
      = qb_df.enum.filter
          (fun x => !(((matchGo bank_df.enum tol qb_df.enum []).1.map Prod.fst).contains x.1)) :=
    rfl
  have hb : (match_qb_and_bank qb_df bank_df tol).unmatched_bank
      = bank_df.enum.filter
          (fun x => !((matchGo bank_df.enum tol qb_df.enum []).2.contains x.1)) := rfl
  set ms := (matchGo bank_df.enum tol qb_df.enum []).1 with hms
  set used := (matchGo bank_df.enum tol qb_df.enum []).2 with husd
  have hqsub : (ms.map Prod.fst).Sublist (qb_df.enum.map Prod.fst) :=
    matchGo_fst_sublist bank_df.enum tol qb_df.enum []
  have hqnodupL : (qb_df.enum.map Prod.fst).Nodup := by
    rw [List.enum_map_fst]
    exact List.nodup_range _
  have hSnodup : (ms.map Prod.fst).Nodup := hqsub.nodup hqnodupL
  have hSsub : ∀ s ∈ ms.map Prod.fst, s ∈ qb_df.enum.map Prod.fst := fun s hs =>
    hqsub.subset hs
  have hcount1 := length_filter_contains qb_df.enum (ms.map Prod.fst) hqnodupL hSnodup hSsub
  have hsplit1 :=
    length_filter_not_add (fun x : ℕ × RRow => (ms.map Prod.fst).contains x.1) qb_df.enum
  have hlen_enum : qb_df.enum.length = qb_df.length := List.enum_length
  have hlenmap : (ms.map Prod.fst).length = ms.length := List.length_map ms Prod.fst
  have husedeq : used = (ms.map Prod.snd).reverse ++ [] :=
    matchGo_used bank_df.enum tol qb_df.enum []
  have hsndfacts := matchGo_snd_facts bank_df.enum tol qb_df.enum []
  have husedmem : ∀ j, j ∈ used ↔ j ∈ ms.map Prod.snd := by
    intro j
    rw [husedeq]
    simp
  have husednodup : used.Nodup := by
    rw [husedeq]
    simpa using List.nodup_reverse.mpr hsndfacts.1
  have husedsub : ∀ s ∈ used, s ∈ bank_df.enum.map Prod.fst := by
    intro s hs
    exact (hsndfacts.2 s ((husedmem s).mp hs)).2
  have hbnodupL : (bank_df.enum.map Prod.fst).Nodup := by
    rw [List.enum_map_fst]
    exact List.nodup_range _
  have hcount2 := length_filter_contains bank_df.enum used hbnodupL husednodup husedsub
  have hsplit2 := length_filter_not_add (fun x : ℕ × RRow => used.contains x.1) bank_df.enum
  have hlen_enumb : bank_df.enum.length = bank_df.length := List.enum_length
  have husedlen : used.length = ms.length := by
    rw [husedeq]
    simp
  refine ⟨?_, ?_, ?_, ?_⟩
  · rw [hm, hq]
    omega
  · rw [hm, hb]
    omega
  · intro x hx
    rw [hm, hq]
    have e : (ms.map Prod.fst).contains x.1 = decide (x.1 ∈ ms.map Prod.fst) :=
      List.elem_eq_mem x.1 (ms.map Prod.fst)
    constructor
    · intro hmem hunm
      rw [List.mem_filter, Bool.not_eq_true', e, decide_eq_false_iff_not] at hunm
      exact hunm.2 hmem
    · intro hnot
      by_contra hmemS
      apply hnot
      rw [List.mem_filter, Bool.not_eq_true', e, decide_eq_false_iff_not]
      exact ⟨hx, hmemS⟩
  · intro x hx
    rw [hm, hb]
    have e : used.contains x.1 = decide (x.1 ∈ used) := List.elem_eq_mem x.1 used
    constructor
    · intro hmem hunm
      rw [List.mem_filter, Bool.not_eq_true', e, decide_eq_false_iff_not] at hunm
      exact hunm.2 ((husedmem x.1).mpr hmem)
    · intro hnot
      by_contra hmemS
      apply hnot
      rw [List.mem_filter, Bool.not_eq_true', e, decide_eq_false_iff_not]
      exact ⟨hx, fun hc => hmemS ((husedmem x.1).mp hc)⟩

/-! ## C10: the two account-prefix extractors -/

/-- Digits are not whitespace. -/
theorem pyIsSpace_of_digit (d : Char) (h : d.isDigit = true) : pyIsSpace d = false := by
  simp [Char.isDigit] at h
  have h48 : 48 ≤ d.toNat := h.1
  by_contra hne
  have htrue : pyIsSpace d = true := by
    revert hne
    cases pyIsSpace d <;> simp
  simp [pyIsSpace] at htrue
  rcases htrue with (((((rfl | rfl) | rfl) | rfl) | rfl) | rfl) <;> exact absurd h48 (by decide)

/-- `toLower` fixes digits. -/
theorem char_toLower_digit (d : Char) (h : d.isDigit = true) : d.toLower = d := by
  simp [Char.isDigit] at h
  have h57 : d.toNat ≤ 57 := h.2
  simp only [Char.toLower]
  rw [if_neg]
  omega

/-- Dropping a prefix from a list ending in a non-dropped element keeps that element. -/
theorem dropWhile_append_singleton {p : Char → Bool} {d : Char} (hd : p d = false) :
    ∀ xs : List Char, ∃ z, (xs ++ [d]).dropWhile p = z ++ [d] := by
  intro xs
  induction xs with
  | nil => exact ⟨[], by simp [List.dropWhile, hd]⟩
  | cons a t ih =>
    cases hp : p a
    · exact ⟨a :: t, by simp [List.dropWhile, hp]⟩
    · obtain ⟨z, hz⟩ := ih
      exact ⟨z, by simp [List.dropWhile, hp, hz]⟩

/-- When the account text starts (after whitespace) with a digit, the blank/"nan"
guard of `extract_account_prefix` cannot fire and the full digit run is returned. -/
theorem extract_eq_digitRun (s : List Char) (hne : digitRun s ≠ []) :
    extract_account_prefix s = some (digitRun s) := by
  cases ht : s.dropWhile pyIsSpace with
  | nil => exact absurd (by simp [digitRun, ht]) hne
  | cons d t' =>
    have hd : d.isDigit = true := by
      by_contra hdd
      have hdd' : d.isDigit = false := by
        revert hdd
        cases d.isDigit <;> simp
      exact hne (by simp [digitRun, ht, List.takeWhile, hdd'])
    have hds : pyIsSpace d = false := pyIsSpace_of_digit d hd
    obtain ⟨z, hz⟩ := dropWhile_append_singleton hds t'.reverse
    have hstrip : stripPy s = d :: z.reverse := by
      rw [stripPy, ht, List.reverse_cons, hz]
      simp
    rw [ extract_account_prefix, if_neg]
    · simp [hne]
    · rw [hstrip]
      intro hcon
      rcases hcon with hc | hc
      · simp at hc
      · have hdata : "nan".data = ['n', 'a', 'n'] := rfl
        rw [hdata] at hc
        have h1 : lowerStr (d :: z.reverse) = Char.toLower d :: lowerStr z.reverse := rfl
        rw [h1] at hc
        have h2 := (List.cons.injEq _ _ _ _).mp hc |>.1
        rw [char_toLower_digit d hd] at h2
        subst h2
        exact absurd hd (by decide)

/-- C10 counterexample: on the account text "7045.120" the classifier's extractor
returns the full run "7045" while the legacy job-cost extractor returns "704". -/
theorem prefix_extractors_disagree :
    extract_account_prefix "7045.120".data = some "7045".data ∧
    account_code_prefix "7045.120".data = some "704".data ∧
    some "7045".data ≠ some "704".data := by
  refine ⟨by decide, by decide, by decide⟩

/-- C10 (amended): the two extractors agree exactly on account texts whose leading
digit run (after optional whitespace) has length 3 — the usual `NNN.xxx` chart
codes — or length 0 (no code at all); on runs of length 1–2 or of length > 3 they
differ, so the legacy job-cost test and the COGS classification test can disagree. -/
theorem prefix_extractors_agree_iff (s : List Char) :
    account_code_prefix s = extract_account_prefix s
      ↔ ((digitRun s).length = 3 ∨ (digitRun s).length = 0) := by
  by_cases h0 : digitRun s = []
  · constructor
    · intro _
      right
      simp [h0]
    · intro _
      simp [ account_code_prefix, extract_account_prefix, h0, ite_self]
  · have hext := extract_eq_digitRun s h0
    rw [hext, account_code_prefix]
    by_cases h3 : 3 ≤ (digitRun s).length
    · rw [if_pos h3]
      constructor
      · intro heq
        injection heq with heq
        left
        have hlen := congrArg List.length heq
        simp [List.length_take] at hlen
        omega
      · intro hd
        rcases hd with hd | hd
        · rw [List.take_of_length_le (by omega)]
        · exact absurd (List.length_eq_zero.mp hd) h0
    · rw [if_neg h3]
      constructor
      · intro heq
        exact absurd heq (by simp)
      · intro hd
        rcases hd with hd | hd
        · omega
        · exact absurd (List.length_eq_zero.mp hd) h0

/-- C2 witness: the characterization applied at a 61-day and a 5-day window. -/
theorem calculate_run_rates_characterization_witness :
    calculate_run_rates [("a", (976 : ℚ))] 61 = [("a", 487)] ∧
    calculate_run_rates [("a", (5 : ℚ))] 5 = [("a", 5)] := by
  constructor
  · have h := (calculate_run_rates_characterization [("a", (976 : ℚ))] 61).1 (by norm_num)
    rw [h]
    with_unfolding_all decide
  · exact (calculate_run_rates_characterization [("a", (5 : ℚ))] 5).2 (by norm_num)

/-- C9 witness: the partition theorem applied to the concrete day-12/day-25 fixture. -/
theorem match_qb_and_bank_partitions_witness :
    (0 ∈ (match_qb_and_bank [(⟨10, 100⟩ : RRow)] [⟨12, 100⟩, ⟨25, 100⟩] 14).matched.map
        Prod.fst
      ↔ ((0, (⟨10, 100⟩ : RRow)) ∉
          (match_qb_and_bank [⟨10, 100⟩] [⟨12, 100⟩, ⟨25, 100⟩] 14).unmatched_qb)) ∧
    (1 ∈ (match_qb_and_bank [(⟨10, 100⟩ : RRow)] [⟨12, 100⟩, ⟨25, 100⟩] 14).matched.map
        Prod.snd
      ↔ ((1, (⟨25, 100⟩ : RRow)) ∉
          (match_qb_and_bank [⟨10, 100⟩] [⟨12, 100⟩, ⟨25, 100⟩] 14).unmatched_bank)) := by
  constructor
  · exact (match_qb_and_bank_partitions [⟨10, 100⟩] [⟨12, 100⟩, ⟨25, 100⟩] 14).2.2.1
      (0, ⟨10, 100⟩) (by decide)
  · exact (match_qb_and_bank_partitions [⟨10, 100⟩] [⟨12, 100⟩, ⟨25, 100⟩] 14).2.2.2
      (1, ⟨25, 100⟩) (by decide)

end JCW
